import Mathlib

/-!
Verification development for the scp-wiki-article-builder engine.

The engine (src/unnamed/part_000, src/unnamed/part_004, src/services/Service.js)
is a Handlebars-based document build pipeline.  This file gives a shallow
embedding of the parts of the code that carry the specified invariants:

* a model of the posix `path` module operations the code uses
  (`basename`, `extname`, `resolve`, `dirname`, `relative`), with resolved
  absolute paths represented as their lists of segments;
* the `Service` base class and the `ImageService` resource registrar
  (registration, unique-output-name search, afterBuild copy loop);
* the build orchestrator control flow of `buildWithNoErrorHandling` and its
  error-swallowing wrapper `build`, with filesystem/templating step outcomes
  supplied as explicit data;
* the render-context object literal and the `loadBuildConfig` output
  interpolation;
* the `loadStrings` path computation.
-/

/-! ### Model of the posix path module -/

/-- A resolved absolute path is modelled as its list of segments:
the node string `/a/b` corresponds to `["a", "b"]` and `/` to `[]`.
The map from resolved path strings to segment lists is a bijection, so
equality of segment lists is equality of the resolved paths. -/
abbrev PathSegs := List String

/-- Splits the character list of a path at every slash.
Models the segmentation the node path module performs. -/
def splitCharsAux : List Char → List Char → List String
  | [], acc => [String.mk acc.reverse]
  | c :: rest, acc =>
    if c = '/' then String.mk acc.reverse :: splitCharsAux rest []
    else splitCharsAux rest (c :: acc)

/-- Splits a path string into its slash-separated parts, keeping empty parts
(so "/a" gives ["", "a"]), exactly as the node path module segments paths. -/
def splitPath (s : String) : List String := splitCharsAux s.data []

/-- A path is absolute when its first character is a slash
(the check the node posix path module performs). -/
def isAbsolutePath (s : String) : Bool := s.data.head? = some '/'

/-- One step of node path normalization over a segment stack: empty segments
and "." are dropped, ".." removes the previous segment (at the root of an
absolute path it is discarded), and any other segment is kept. -/
def normStep (stack : List String) (seg : String) : List String :=
  if seg = "" ∨ seg = "." then stack
  else if seg = ".." then stack.dropLast
  else stack ++ [seg]

/-- Node path normalization of an absolute path given as raw segments. -/
def normalizeSegs (segs : List String) : List String := segs.foldl normStep []

/-- Model of `path.resolve(p)` for a single argument: an absolute `p` is
normalized as is, a relative one is resolved against the current working
directory `cwd`. -/
def resolveOne (cwd : PathSegs) (p : String) : PathSegs :=
  if isAbsolutePath p then normalizeSegs (splitPath p)
  else normalizeSegs (cwd ++ splitPath p)

/-- Model of `path.resolve(dir, name)`: arguments are processed right to
left until an absolute one is found, then the remainder is appended and the
result normalized; with no absolute argument the current working directory
`cwd` is the base. -/
def resolveSegs (cwd : PathSegs) (dir name : String) : PathSegs :=
  if isAbsolutePath name then normalizeSegs (splitPath name)
  else if isAbsolutePath dir then normalizeSegs (splitPath dir ++ splitPath name)
  else normalizeSegs (cwd ++ splitPath dir ++ splitPath name)

/-- Model of `path.basename(p)`: the last nonempty slash-separated part;
for strings with no nonempty part (such as "/" or "") node returns the
input itself. -/
def basename (s : String) : String :=
  ((splitPath s).reverse.find? (fun seg => seg ≠ "")).getD s

/-- Strips `ext` from the end of the character list `b` when `ext` is a
nonempty strict suffix of `b`; otherwise leaves `b` unchanged.  This is the
suffix handling of two-argument `path.basename`. -/
def stripSuffix (b ext : List Char) : List Char :=
  if ext ≠ [] ∧ ext ≠ b ∧ ext.isSuffixOf b then b.take (b.length - ext.length)
  else b

/-- Model of `path.basename(p, ext)`: the base name with the extension
`ext` removed when it is a strict suffix of the base name. -/
def basenameExt (s ext : String) : String :=
  String.mk (stripSuffix (basename s).data ext.data)

/-- The suffix of `cs` starting at its last dot, if `cs` has a dot. -/
def afterLastDot : List Char → Option (List Char)
  | [] => none
  | c :: rest =>
    match afterLastDot rest with
    | some suf => some suf
    | none => if c = '.' then some (c :: rest) else none

/-- Model of `path.extname(p)`: the suffix of the base name from its last
dot, where a dot in first position does not count (so ".gitignore" has no
extension) and the base name ".." has no extension. -/
def extname (s : String) : String :=
  let b := basename s
  if b = ".." then ""
  else
    match b.data with
    | [] => ""
    | _ :: rest =>
      match afterLastDot rest with
      | some suf => String.mk suf
      | none => ""

/-- Model of `path.dirname(p)`: everything before the last slash, with "."
for slashless paths and "/" when only root segments remain. -/
def dirname (s : String) : String :=
  let parts := splitPath s
  if parts.length ≤ 1 then "."
  else if parts.dropLast.all (fun seg => seg = "") then "/"
  else String.intercalate "/" parts.dropLast

/-- The common prefix length of two segment lists, as used by
`path.relative`. -/
def commonPrefixLen : List String → List String → Nat
  | a :: as, b :: bs => if a = b then commonPrefixLen as bs + 1 else 0
  | _, _ => 0

/-- Model of `path.relative(from, to)` on two already resolved absolute
paths: one ".." step for every segment of `from` past the common prefix,
followed by the remainder of `to`. -/
def relativeSegs (fromSegs toSegs : PathSegs) : List String :=
  let c := commonPrefixLen fromSegs toSegs
  List.replicate (fromSegs.length - c) ".." ++ toSegs.drop c

/-- The base name (final segment) of a resolved absolute path, as
`path.basename` computes it on the rendered path string. -/
def segsBasename (p : PathSegs) : String := p.getLast?.getD "/"

/-- Renders a resolved absolute path back to its node string form. -/
def segsToString (p : PathSegs) : String := "/" ++ String.intercalate "/" p

/-- Decimal digit characters of `n`, most significant first, computed with
explicit fuel (any fuel above `n` suffices, because `n / 10 < n`). -/
def decChars : Nat → Nat → List Char
  | 0, _ => []
  | fuel + 1, n =>
    if n < 10 then [Nat.digitChar n]
    else decChars fuel (n / 10) ++ [Nat.digitChar (n % 10)]

/-- Decimal numeral of a natural number, as the JS template literal
interpolation of a nonnegative integer produces it. -/
def jsNatRepr (n : Nat) : String := String.mk (decChars (n + 1) n)

/-! ### Data model: build options (src/unnamed/part_000, buildOptionsSpec) -/

/-- The interpolated output location, the `output` field of the build
options (src/unnamed/part_000 lines 55-58). -/
structure OutputSpec where
  dir : String
  filename : String
deriving DecidableEq

/-- The validated build configuration object (src/unnamed/part_000 lines
28-66).  The `data` payload is an arbitrary value of type `α`; components
are carried by name (their helper functions live in the templating engine,
which is external to this model). -/
structure BuildOptions (α : Type) where
  wikiName : String
  pageName : String
  entry : String
  partialsDir : String
  stringsDir : String
  output : OutputSpec
  locale : String
  components : List String
  subProjects : Option (List (String × String))
  data : α
deriving DecidableEq

/-! ### Services (src/services/Service.js, src/unnamed/part_004) -/

/-- The `Service` base class state.  Its constructor (Service.js line 13)
reads `this,serviceName = serviceName;` — a comma expression that evaluates
`this` and then assigns the parameter to itself, so the `serviceName`
property is never set and stays the JS value `undefined`, modelled here as
`Option String` with `none` for `undefined`. -/
structure Service (α : Type) where
  serviceName : Option String
  options : BuildOptions α
deriving DecidableEq

/-- The `Service` constructor (Service.js lines 12-15).  Because of the
comma-operator slip on line 13 the `serviceName` parameter is discarded and
the field is left `undefined` (`none`). -/
def Service.make (α : Type) (serviceName : String) (options : BuildOptions α) : Service α :=
  { serviceName := none, options := options }

/-- JS string interpolation of a possibly-undefined string value:
`undefined` renders as the text "undefined". -/
def undefinedToString : Option String → String
  | none => "undefined"
  | some s => s

/-- The message of the RuntimeException raised by `Service.error`
(Service.js lines 23-28). -/
def Service.error {α : Type} (svc : Service α) (message : String) : String :=
  "Error in service \"" ++ undefinedToString svc.serviceName ++ "\": " ++ message

/-- A registered image resource: the `{inputPath, outputPath}` pair kept in
`ImageService.images` (src/unnamed/part_004 lines 37-47). -/
structure RegisteredImage where
  inputPath : String
  outputPath : PathSegs
deriving DecidableEq

/-- The `ImageService` state: the inherited `Service` state plus the
`images` registry (src/unnamed/part_004 lines 43-54). -/
structure ImageService (α : Type) where
  base : Service α
  images : List RegisteredImage
deriving DecidableEq

/-- The `ImageService` constructor: `super(ImageService.name, options)`
with an empty registry (src/unnamed/part_004 lines 47-54). -/
def ImageService.make (α : Type) (options : BuildOptions α) : ImageService α :=
  { base := Service.make α "ImageService" options, images := [] }

/-- The candidate output file name for attempt `n` inside
`_findUniqueOutputPath` (src/unnamed/part_004 lines 69-74):
base name, then the suffix `_n` when `n > 0`, then the extension. -/
def outputName (inputPath : String) (n : Nat) : String :=
  basenameExt inputPath (extname inputPath)
    ++ (if n > 0 then "_" ++ jsNatRepr n else "")
    ++ extname inputPath

/-- The candidate output path for attempt `n`: `createOutputPath` in
`_findUniqueOutputPath` resolves the candidate name against the configured
output directory (src/unnamed/part_004 line 73). -/
def createOutputPath (cwd : PathSegs) (outputDir inputPath : String) (n : Nat) : PathSegs :=
  resolveSegs cwd outputDir (outputName inputPath n)

/-- Whether a candidate output path is already claimed in the registry:
`this.images.filter(image => image.outputPath === outputPath).length > 0`
(src/unnamed/part_004 line 77). -/
def isClaimed (images : List RegisteredImage) (p : PathSegs) : Bool :=
  (images.filter (fun image => decide (image.outputPath = p))).length > 0

/-- The search loop of `_findUniqueOutputPath` (src/unnamed/part_004 lines
76-79): starting at attempt `i`, return the first attempt index whose
candidate is unclaimed.  The JS loop is unbounded; here it carries fuel,
and every caller passes `images.length + 1`, which by the pigeonhole
principle is enough whenever the candidates are pairwise distinct, so the
two agree on every terminating run. -/
def findUPAux (claimed : Nat → Bool) : Nat → Nat → Nat
  | 0, i => i
  | fuel + 1, i => if claimed i then findUPAux claimed fuel (i + 1) else i

/-- Model of `ImageService._findUniqueOutputPath` (src/unnamed/part_004 lines
66-82): the first candidate output path not yet claimed by a registered
image. -/
def ImageService.findUniqueOutputPath {α : Type} (cwd : PathSegs) (svc : ImageService α)
    (inputPath : String) : PathSegs :=
  createOutputPath cwd svc.base.options.output.dir inputPath
    (findUPAux
      (fun n => isClaimed svc.images (createOutputPath cwd svc.base.options.output.dir inputPath n))
      (svc.images.length + 1) 0)

/-- The wiki URL returned by `registerImage` (src/unnamed/part_004 line
115). -/
def wikiFileUrl {α : Type} (options : BuildOptions α) (outputFilename : String) : String :=
  "http://" ++ options.wikiName ++ ".wikidot.com/local--files/"
    ++ options.pageName ++ "/" ++ outputFilename

/-- Model of `ImageService.registerImage` (src/unnamed/part_004 lines 91-116):
if the input path is already registered, reuse its output path, otherwise
find a unique output path and append the pair to the registry; either way
return the wiki URL built from the output file name.  (The non-fatal
console notice of lines 110-112 has no effect on the state and is not
modelled.) -/
def ImageService.registerImage {α : Type} (cwd : PathSegs) (svc : ImageService α)
    (imageAbsolutePath : String) : String × ImageService α :=
  match (svc.images.filter (fun image => decide (image.inputPath = imageAbsolutePath))).head? with
  | some alreadyRegisteredImage =>
    (wikiFileUrl svc.base.options (segsBasename alreadyRegisteredImage.outputPath), svc)
  | none =>
    let outputPath := svc.findUniqueOutputPath cwd imageAbsolutePath
    (wikiFileUrl svc.base.options (segsBasename outputPath),
      { svc with
        images := svc.images ++ [{ inputPath := imageAbsolutePath, outputPath := outputPath }] })

/-- Registers a list of images in order, keeping the final service state. -/
def ImageService.registerAll {α : Type} (cwd : PathSegs) (svc : ImageService α)
    (inputs : List String) : ImageService α :=
  inputs.foldl (fun s p => (ImageService.registerImage cwd s p).2) svc

/-- The message of the error raised in the catch block of
`ImageService.afterBuild` (src/unnamed/part_004 lines 126-129): the copy
failure reason wrapped by `Service.error`. -/
def copyErrorMessage {α : Type} (svc : Service α) (image : RegisteredImage)
    (reason : String) : String :=
  Service.error svc
    ("Error while trying to copy " ++ image.inputPath ++ " to "
      ++ segsToString image.outputPath ++ ".\n" ++ "Reason: " ++ reason ++ ".")

/-- The copy loop of `ImageService.afterBuild` (src/unnamed/part_004 lines
121-132).  `copyResult` is the filesystem outcome of `fs.copyFile` for each
image: `none` for success, `some reason` for a failure with that message.
The loop copies images in order; on the first failure the catch block calls
`this.error(...)`, which throws, so the loop stops.  The result is the list
of images whose copy completed and the raised error message, if any. -/
def afterBuildLoop {α : Type} (svc : Service α)
    (copyResult : RegisteredImage → Option String) :
    List RegisteredImage → List RegisteredImage × Option String
  | [] => ([], none)
  | image :: rest =>
    match copyResult image with
    | some reason => ([], some (copyErrorMessage svc image reason))
    | none =>
      let r := afterBuildLoop svc copyResult rest
      (image :: r.1, r.2)

/-- Model of `ImageService.afterBuild` (src/unnamed/part_004 lines 121-132) applied
to the whole registry. -/
def ImageService.afterBuild {α : Type} (svc : ImageService α)
    (copyResult : RegisteredImage → Option String) :
    List RegisteredImage × Option String :=
  afterBuildLoop svc.base copyResult svc.images

/-! ### Render context (src/unnamed/part_000 lines 175-184) -/

/-- JS object-literal property insertion: setting a key that already exists
overwrites its value in place (keys of a JS object are unique, so exactly
the first occurrence), otherwise the property is appended.  This is the
semantics of a spread followed by explicit properties. -/
def jsSetKey {α : Type} : List (String × α) → String → α → List (String × α)
  | [], k, v => [(k, v)]
  | (a, b) :: rest, k, v =>
    if a = k then (a, v) :: rest else (a, b) :: jsSetKey rest k v

/-- The data frame passed to the compiled entry template
(src/unnamed/part_000 lines 176-183):
`{ ...subProjectsData, config: options, strings, services }` — the spread
of the sub-project data, then the `config`, `strings` and `services`
properties, which overwrite any same-named key from the spread. -/
def mkRenderData {α : Type} (subProjectsData : List (String × α))
    (config strings services : α) : List (String × α) :=
  jsSetKey (jsSetKey (jsSetKey subProjectsData "config" config) "strings" strings)
    "services" services

/-! ### Build orchestration (src/unnamed/part_000 lines 130-191) -/

/-- Observable service-lifecycle events of one `buildWithNoErrorHandling`
call: construction of fresh services (line 163, `createServices`), the
before-hook phase (line 172, `servicesBefore`) and the after-hook phase
(line 187, `servicesAfter`). -/
inductive BuildEv where
  | constructedServices
  | ranBeforeHooks
  | ranAfterHooks
deriving DecidableEq, BEq

/-- Outcome of each failable step of `buildWithNoErrorHandling`, in source
order.  The steps themselves (filesystem access, config imports, the
Handlebars engine) are external collaborators; each field records whether
the corresponding awaited call throws (`some` error message) or succeeds
(`none`), and `renderedText` is the text produced when evaluation
succeeds. -/
structure BuildSteps where
  validationError : Option String
  partialsError : Option String
  subProjectsError : Option String
  stringsError : Option String
  entryError : Option String
  compileError : Option String
  beforeError : Option String
  renderError : Option String
  renderedText : String
  afterError : Option String
deriving DecidableEq

/-- Control flow of `buildWithNoErrorHandling` (src/unnamed/part_000 lines
152-191): validation (line 156), partials (line 159), sub-project data
(line 160), strings (line 161), entry content (line 162); then
`existingServices || createServices(options)` (line 163) — fresh services
are constructed only when `existingServices` is null (`false` here); the
template is compiled (line 169); the before hooks run only for fresh
services (lines 171-173); the template is evaluated (line 175); the after
hooks run only for fresh services (lines 186-188).  A throw at any step
propagates immediately.  Returns the emitted lifecycle events and either
the generated text or the thrown error. -/
def buildWithNoErrorHandling (steps : BuildSteps) (existingServices : Bool) :
    List BuildEv × Except String String :=
  if let some e := steps.validationError then ([], .error e) else
  if let some e := steps.partialsError then ([], .error e) else
  if let some e := steps.subProjectsError then ([], .error e) else
  if let some e := steps.stringsError then ([], .error e) else
  if let some e := steps.entryError then ([], .error e) else
  let evs : List BuildEv := if existingServices then [] else [.constructedServices]
  if let some e := steps.compileError then (evs, .error e) else
  if existingServices then
    match steps.renderError with
    | some e => (evs, .error e)
    | none => (evs, .ok steps.renderedText)
  else
    match steps.beforeError with
    | some e => (evs ++ [.ranBeforeHooks], .error e)
    | none =>
      match steps.renderError with
      | some e => (evs ++ [.ranBeforeHooks], .error e)
      | none =>
        match steps.afterError with
        | some e => (evs ++ [.ranBeforeHooks, .ranAfterHooks], .error e)
        | none => (evs ++ [.ranBeforeHooks, .ranAfterHooks], .ok steps.renderedText)

/-- The error component of a build outcome: the thrown error, if any. -/
def exceptError : Except String String → Option String
  | .error e => some e
  | .ok _ => none

/-- The error-swallowing wrapper `build` (src/unnamed/part_000 lines
130-140): `generatedText` starts as null, the try block assigns the result
of `buildWithNoErrorHandling`, the catch block reports the exception via
`printException` and swallows it, and `generatedText` is returned either
way.  Result: the lifecycle events, the returned value (`none` for null),
and the reported error, if any. -/
def build (steps : BuildSteps) (existingServices : Bool) :
    List BuildEv × Option String × Option String :=
  match buildWithNoErrorHandling steps existingServices with
  | (evs, .ok t) => (evs, some t, none)
  | (evs, .error e) => (evs, none, some e)

/-! ### Config loading (src/unnamed/part_000 lines 73-103) -/

/-- The final step of `loadBuildConfig` (src/unnamed/part_000 lines
93-100): spread the validated options and replace only `output.dir` and
`output.filename` with their interpolated values.  `interp` stands for
`interpolatePathTemplate options`, the external Handlebars-based
interpolation (lines 424-435). -/
def loadBuildConfigInterpolate {α : Type} (interp : BuildOptions α → String → String)
    (buildOptions : BuildOptions α) : BuildOptions α :=
  { buildOptions with
    output :=
      { dir := interp buildOptions buildOptions.output.dir
        filename := interp buildOptions buildOptions.output.filename } }

/-! ### Localized strings path (src/unnamed/part_000 lines 280-302) -/

/-- The file that `loadStrings` ends up reading (src/unnamed/part_000 lines
283-293).  Line 286: `stringsAbsolutePath = path.resolve(options.stringsDir,
locale + ".json")`.  Lines 287-290: `stringsPath = "./" + path.relative(
path.dirname(configFilePath), stringsAbsolutePath)` — `path.relative`
resolves both of its arguments against the working directory first.  Line
293: `projectRequire(stringsPath)` resolves that relative path against the
directory of `configFilePath` (the base of the `createRequire` at line
283). -/
def loadStringsPath (cwd : PathSegs) (configFilePath stringsDir locale : String) : PathSegs :=
  let stringsAbsolutePath := resolveSegs cwd stringsDir (locale ++ ".json")
  let fromDir := resolveOne cwd (dirname configFilePath)
  normalizeSegs (fromDir ++ ("." :: relativeSegs fromDir stringsAbsolutePath))

/-! ### Concrete sample data for witnesses and counterexamples -/

/-- A concrete build configuration used by the witnesses below. -/
def sampleOptions : BuildOptions Unit :=
  { wikiName := "scp-wiki"
    pageName := "scp-173"
    entry := "/proj/entry.hbs"
    partialsDir := "/proj/partials"
    stringsDir := "strings"
    output := { dir := "/out", filename := "article.txt" }
    locale := "en"
    components := ["note"]
    subProjects := none
    data := () }

/-- The success component of a build outcome: the generated text, if any. -/
def exceptOk : Except String String → Option String
  | .error _ => none
  | .ok t => some t

/-- Whether `needle` occurs as a contiguous substring of `hay`. -/
def strContains (hay needle : String) : Bool :=
  hay.data.tails.any (fun t => needle.data.isPrefixOf t)

/-- A concrete run of build steps in which every external step succeeds. -/
def sampleSteps : BuildSteps :=
  { validationError := none
    partialsError := none
    subProjectsError := none
    stringsError := none
    entryError := none
    compileError := none
    beforeError := none
    renderError := none
    renderedText := "Hello, Home!"
    afterError := none }

/-- JS property access on an object modelled as an insertion-ordered list
of properties: the value at the first matching key. -/
def jsGet {α : Type} : List (String × α) → String → Option α
  | [], _ => none
  | (a, b) :: rest, k => if k = a then some b else jsGet rest k

/-- A string that is a plain path segment: nonempty, not one of the special
segments "." and "..", and containing no slash.  The candidate output file
names of the image service are plain segments for every ordinary image
path. -/
def PlainName (s : String) : Prop :=
  s ≠ "" ∧ s ≠ "." ∧ s ≠ ".." ∧ '/' ∉ s.data

instance (s : String) : Decidable (PlainName s) := by
  unfold PlainName
  infer_instance

/-- A normalized path segment: not empty, "." or "..".  Every segment of a
`normalizeSegs` result has this shape. -/
def NormSeg (s : String) : Prop := s ≠ "" ∧ s ≠ "." ∧ s ≠ ".."

/-! ### Helper lemmas: JS object-literal insertion -/

theorem jsSetKey_jsGet_self {α : Type} (k : String) (v : α) (o : List (String × α)) :
    jsGet (jsSetKey o k v) k = some v := by
  induction o with
  | nil => simp [jsSetKey, jsGet]
  | cons hd tl ih =>
    obtain ⟨a, b⟩ := hd
    by_cases h : a = k
    · subst h
      simp [jsSetKey, jsGet]
    · simp [jsSetKey, jsGet, h, Ne.symm h, ih]

theorem jsSetKey_jsGet_other {α : Type} (k k' : String) (v : α) (o : List (String × α))
    (h : k' ≠ k) : jsGet (jsSetKey o k v) k' = jsGet o k' := by
  induction o with
  | nil => simp [jsSetKey, jsGet, h]
  | cons hd tl ih =>
    obtain ⟨a, b⟩ := hd
    by_cases hh : a = k
    · subst hh
      simp [jsSetKey, jsGet, h]
    · simp [jsSetKey, jsGet, hh, ih]

/-- C4: in the render data frame built at src/unnamed/part_000 lines
176-183, the keys config, strings and services always resolve to the
values supplied by the build itself, regardless of what the merged
sub-project data contains, because those three properties are written
after the spread of the sub-project data. -/
theorem renderData_build_keys_win {α : Type} (subProjectsData : List (String × α))
    (config strings services : α) :
    jsGet (mkRenderData subProjectsData config strings services) "config" = some config
    ∧ jsGet (mkRenderData subProjectsData config strings services) "strings" = some strings
    ∧ jsGet (mkRenderData subProjectsData config strings services) "services" = some services := by
  unfold mkRenderData
  refine ⟨?_, ?_, ?_⟩
  · rw [jsSetKey_jsGet_other _ _ _ _ (by decide), jsSetKey_jsGet_other _ _ _ _ (by decide),
      jsSetKey_jsGet_self]
  · rw [jsSetKey_jsGet_other _ _ _ _ (by decide), jsSetKey_jsGet_self]
  · rw [jsSetKey_jsGet_self]

/-- C9: `loadBuildConfig` (src/unnamed/part_000 lines 93-100) returns the
validated options unchanged on every field except `output`, whose `dir`
and `filename` are replaced by their interpolated values. -/
theorem loadBuildConfig_frame {α : Type} (interp : BuildOptions α → String → String)
    (o : BuildOptions α) :
    (loadBuildConfigInterpolate interp o).wikiName = o.wikiName
    ∧ (loadBuildConfigInterpolate interp o).pageName = o.pageName
    ∧ (loadBuildConfigInterpolate interp o).entry = o.entry
    ∧ (loadBuildConfigInterpolate interp o).partialsDir = o.partialsDir
    ∧ (loadBuildConfigInterpolate interp o).stringsDir = o.stringsDir
    ∧ (loadBuildConfigInterpolate interp o).locale = o.locale
    ∧ (loadBuildConfigInterpolate interp o).components = o.components
    ∧ (loadBuildConfigInterpolate interp o).subProjects = o.subProjects
    ∧ (loadBuildConfigInterpolate interp o).data = o.data
    ∧ (loadBuildConfigInterpolate interp o).output.dir = interp o o.output.dir
    ∧ (loadBuildConfigInterpolate interp o).output.filename = interp o o.output.filename :=
  ⟨rfl, rfl, rfl, rfl, rfl, rfl, rfl, rfl, rfl, rfl, rfl⟩

/-- C10: the wrapper `build` (src/unnamed/part_000 lines 130-140) never
propagates an exception: whatever `buildWithNoErrorHandling` does, `build`
returns the generated text on success, and on a throw it reports the error
and returns null. -/
theorem build_swallows_errors (steps : BuildSteps) (existingServices : Bool) :
    build steps existingServices =
      ((buildWithNoErrorHandling steps existingServices).1,
        exceptOk (buildWithNoErrorHandling steps existingServices).2,
        exceptError (buildWithNoErrorHandling steps existingServices).2) := by
  unfold build
  rcases h : buildWithNoErrorHandling steps existingServices with ⟨evs, r⟩
  cases r <;> simp [exceptOk, exceptError]

/-- C6 evaluated at the failing input: because the `Service` constructor
assigns through a comma expression (Service.js line 13,
`this,serviceName = serviceName`), the service name is never stored, so
the error raised by the image service reads `Error in service
"undefined": ...` — the message does not contain the constructing
service's name "ImageService" as the specification requires. -/
theorem service_error_not_tagged :
    Service.error (ImageService.make Unit sampleOptions).base "boom"
        = "Error in service \"undefined\": boom"
    ∧ strContains (Service.error (ImageService.make Unit sampleOptions).base "boom")
        "ImageService" = false := by
  constructor
  · rfl
  · decide

/-- C1 (amended): a copy failure in `ImageService.afterBuild`
(src/unnamed/part_004 lines 121-132) is not isolated: the images before
the first failing copy are copied, then the catch block raises the
service error and the loop stops, so the failing image and every image
after it are not copied.  Stated as an exact description of the loop:
the completed copies are the longest failure-free prefix, and the raised
error is the service-tagged message for the first failing image, if
any. -/
theorem afterBuild_stops_at_first_failure {α : Type} (svc : Service α)
    (copyResult : RegisteredImage → Option String) (images : List RegisteredImage) :
    afterBuildLoop svc copyResult images =
      (images.takeWhile (fun image => (copyResult image).isNone),
        (images.find? (fun image => (copyResult image).isSome)).map
          (fun image => copyErrorMessage svc image ((copyResult image).getD ""))) := by
  induction images with
  | nil => simp [afterBuildLoop]
  | cons image rest ih =>
    cases h : copyResult image with
    | some reason => simp [afterBuildLoop, h, List.takeWhile_cons, List.find?_cons]
    | none => simp [afterBuildLoop, h, ih, List.takeWhile_cons, List.find?_cons]

/-- C1 counterexample: with three registered images whose first copy
fails, the loop completes no copy at all — in particular the second and
third images are not copied, contradicting the claim that the remaining
resources are still copied. -/
theorem afterBuild_failure_not_isolated :
    (afterBuildLoop (Service.make Unit "ImageService" sampleOptions)
        (fun image => if image.inputPath = "/in/a.png" then some "EACCES" else none)
        [{ inputPath := "/in/a.png", outputPath := ["out", "a.png"] },
          { inputPath := "/in/b.png", outputPath := ["out", "b.png"] },
          { inputPath := "/in/c.png", outputPath := ["out", "c.png"] }]).1 = []
    ∧ (({ inputPath := "/in/b.png", outputPath := ["out", "b.png"] } : RegisteredImage)
        ∈ (afterBuildLoop (Service.make Unit "ImageService" sampleOptions)
            (fun image => if image.inputPath = "/in/a.png" then some "EACCES" else none)
            [{ inputPath := "/in/a.png", outputPath := ["out", "a.png"] },
              { inputPath := "/in/b.png", outputPath := ["out", "b.png"] },
              { inputPath := "/in/c.png", outputPath := ["out", "c.png"] }]).1 → False)
    ∧ (({ inputPath := "/in/c.png", outputPath := ["out", "c.png"] } : RegisteredImage)
        ∈ (afterBuildLoop (Service.make Unit "ImageService" sampleOptions)
            (fun image => if image.inputPath = "/in/a.png" then some "EACCES" else none)
            [{ inputPath := "/in/a.png", outputPath := ["out", "a.png"] },
              { inputPath := "/in/b.png", outputPath := ["out", "b.png"] },
              { inputPath := "/in/c.png", outputPath := ["out", "c.png"] }]).1 → False) := by
  refine ⟨rfl, ?_, ?_⟩ <;> decide

/-- C5: when `buildWithNoErrorHandling` (src/unnamed/part_000 lines
152-191) is given existing services it constructs no service and runs no
before/after hook phase; when it is not, and the build completes, it
constructs fresh services and runs each hook phase exactly once. -/
theorem existing_services_skip_lifecycle :
    (∀ steps : BuildSteps,
      (buildWithNoErrorHandling steps true).1.count .constructedServices = 0
      ∧ (buildWithNoErrorHandling steps true).1.count .ranBeforeHooks = 0
      ∧ (buildWithNoErrorHandling steps true).1.count .ranAfterHooks = 0)
    ∧ (∀ (steps : BuildSteps) (t : String),
      (buildWithNoErrorHandling steps false).2 = .ok t →
      (buildWithNoErrorHandling steps false).1.count .constructedServices = 1
      ∧ (buildWithNoErrorHandling steps false).1.count .ranBeforeHooks = 1
      ∧ (buildWithNoErrorHandling steps false).1.count .ranAfterHooks = 1) := by
  constructor
  · intro steps
    rcases steps with ⟨v, p, sp, st, en, co, be, re, rt, af⟩
    cases v <;> cases p <;> cases sp <;> cases st <;> cases en <;> cases co <;> cases re <;>
      simp [buildWithNoErrorHandling]
  · intro steps t h
    rcases steps with ⟨v, p, sp, st, en, co, be, re, rt, af⟩
    cases v <;> cases p <;> cases sp <;> cases st <;> cases en <;> cases co <;> cases be <;>
        cases re <;> cases af <;>
      simp_all [buildWithNoErrorHandling] <;> decide

/-- C5 witness: a concrete fully-successful build without existing
services runs construction and both hook phases exactly once. -/
theorem existing_services_skip_lifecycle_witness :
    (buildWithNoErrorHandling sampleSteps false).2 = .ok "Hello, Home!"
    ∧ ((buildWithNoErrorHandling sampleSteps false).1.count .constructedServices = 1
      ∧ (buildWithNoErrorHandling sampleSteps false).1.count .ranBeforeHooks = 1
      ∧ (buildWithNoErrorHandling sampleSteps false).1.count .ranAfterHooks = 1) :=
  ⟨rfl, existing_services_skip_lifecycle.2 sampleSteps "Hello, Home!" rfl⟩

/-- C2: registering the same input path twice (src/unnamed/part_004 lines
91-116) returns the identical wiki reference both times, leaves the
registry unchanged on the second call, and the registry holds exactly one
entry for that input (the hypothesis states the at-most-one-entry
invariant every reachable registry satisfies). -/
theorem registerImage_idempotent {α : Type} (cwd : PathSegs) (svc : ImageService α) (p : String)
    (h : (svc.images.filter (fun image => decide (image.inputPath = p))).length ≤ 1) :
    (ImageService.registerImage cwd (ImageService.registerImage cwd svc p).2 p).1
        = (ImageService.registerImage cwd svc p).1
    ∧ (ImageService.registerImage cwd (ImageService.registerImage cwd svc p).2 p).2
        = (ImageService.registerImage cwd svc p).2
    ∧ ((ImageService.registerImage cwd svc p).2.images.filter
        (fun image => decide (image.inputPath = p))).length = 1 := by
  rcases hfil : svc.images.filter (fun image => decide (image.inputPath = p)) with _ | ⟨img, rest⟩
  · have hsnd :
        (ImageService.registerImage cwd svc p).2.images.filter
          (fun image => decide (image.inputPath = p))
          = [{ inputPath := p, outputPath := svc.findUniqueOutputPath cwd p }] := by
      simp [ImageService.registerImage, hfil, List.filter_append]
    refine ⟨?_, ?_, ?_⟩
    · simp [ImageService.registerImage, hfil, hsnd]
    · simp [ImageService.registerImage, hfil, hsnd]
    · rw [hsnd]
      rfl
  · have hone : rest = [] := by
      rw [hfil] at h
      simpa using h
    subst hone
    have hsame : (ImageService.registerImage cwd svc p).2 = svc := by
      simp [ImageService.registerImage, hfil]
    refine ⟨?_, ?_, ?_⟩
    · rw [hsame]
    · rw [hsame]
      exact hsame
    · rw [hsame, hfil]
      rfl

/-- C8: the reference returned by `registerImage` (src/unnamed/part_004
lines 107-115) is exactly the wikidot URL built from the wiki name, the
page name and the base name of the output path assigned to that input in
the registry — no filesystem copy is involved. -/
theorem registerImage_url_shape {α : Type} (cwd : PathSegs) (svc : ImageService α) (p : String) :
    ∃ image : RegisteredImage,
      image ∈ (ImageService.registerImage cwd svc p).2.images
      ∧ image.inputPath = p
      ∧ (ImageService.registerImage cwd svc p).1
          = "http://" ++ svc.base.options.wikiName ++ ".wikidot.com/local--files/"
            ++ svc.base.options.pageName ++ "/" ++ segsBasename image.outputPath := by
  rcases hfil : svc.images.filter (fun image => decide (image.inputPath = p)) with _ | ⟨img, rest⟩
  · refine ⟨{ inputPath := p, outputPath := svc.findUniqueOutputPath cwd p }, ?_, rfl, ?_⟩
    · simp [ImageService.registerImage, hfil]
    · simp [ImageService.registerImage, hfil, wikiFileUrl]
  · have hmem : img ∈ svc.images.filter (fun image => decide (image.inputPath = p)) := by
      rw [hfil]; exact List.mem_cons_self img rest
    refine ⟨img, ?_, ?_, ?_⟩
    · simp [ImageService.registerImage, hfil]
      exact List.mem_of_mem_filter hmem
    · have := List.of_mem_filter hmem
      simpa using this
    · simp [ImageService.registerImage, hfil, wikiFileUrl]

/-! ### Helper lemmas: path normalization -/

theorem normalizeSegs_append (a b : List String) :
    normalizeSegs (a ++ b) = b.foldl normStep (normalizeSegs a) := by
  simp [normalizeSegs, List.foldl_append]

theorem normStep_normSeg (st : List String) (s : String) (h : NormSeg s) :
    normStep st s = st ++ [s] := by
  obtain ⟨h1, h2, h3⟩ := h
  unfold normStep
  rw [if_neg (by simp [h1, h2]), if_neg h3]

theorem foldl_normStep_plain (l : List String) (h : ∀ s ∈ l, NormSeg s) :
    ∀ acc : List String, l.foldl normStep acc = acc ++ l := by
  induction l with
  | nil => intro acc; simp
  | cons c rest ih =>
    intro acc
    have hc : NormSeg c := h c (List.mem_cons_self c rest)
    rw [List.foldl_cons, normStep_normSeg acc c hc,
      ih (fun s hs => h s (List.mem_cons_of_mem c hs))]
    simp

theorem foldl_normStep_normSeg (l : List String) :
    ∀ acc : List String, (∀ s ∈ acc, NormSeg s) →
      ∀ s ∈ l.foldl normStep acc, NormSeg s := by
  induction l with
  | nil => intro acc hacc s hs; exact hacc s hs
  | cons c rest ih =>
    intro acc hacc s hs
    rw [List.foldl_cons] at hs
    refine ih (normStep acc c) ?_ s hs
    intro x hx
    unfold normStep at hx
    split at hx
    · exact hacc x hx
    · split at hx
      · exact hacc x ((List.dropLast_sublist acc).subset hx)
      · rcases List.mem_append.mp hx with hmem | hmem
        · exact hacc x hmem
        · rcases List.mem_singleton.mp hmem with rfl
          constructor
          · intro hc; simp_all
          · constructor
            · intro hc; simp_all
            · intro hc; simp_all

theorem normalizeSegs_normSeg (l : List String) : ∀ s ∈ normalizeSegs l, NormSeg s :=
  foldl_normStep_normSeg l [] (by intro s hs; simp at hs)

theorem foldl_normStep_dotdot (k : Nat) :
    ∀ acc : List String, (List.replicate k "..").foldl normStep acc
      = acc.take (acc.length - k) := by
  induction k with
  | zero => intro acc; simp
  | succ k ih =>
    intro acc
    rw [List.replicate_succ, List.foldl_cons]
    have hstep : normStep acc ".." = acc.dropLast := by
      unfold normStep
      rw [if_neg (by simp), if_pos rfl]
    rw [hstep, ih acc.dropLast, List.dropLast_eq_take, List.take_take, List.length_take]
    congr 1
    omega

theorem commonPrefixLen_le_left : ∀ a b : List String, commonPrefixLen a b ≤ a.length := by
  intro a
  induction a with
  | nil => intro b; cases b <;> simp [commonPrefixLen]
  | cons x xs ih =>
    intro b
    cases b with
    | nil => simp [commonPrefixLen]
    | cons y ys =>
      unfold commonPrefixLen
      split
      · have := ih ys
        simp
        omega
      · simp

theorem take_commonPrefixLen_eq : ∀ a b : List String,
    a.take (commonPrefixLen a b) = b.take (commonPrefixLen a b) := by
  intro a
  induction a with
  | nil => intro b; cases b <;> simp [commonPrefixLen]
  | cons x xs ih =>
    intro b
    cases b with
    | nil => simp [commonPrefixLen]
    | cons y ys =>
      unfold commonPrefixLen
      split
      · rename_i hxy
        subst hxy
        simp [List.take_succ_cons, ih ys]
      · simp

/-- The require round trip of `loadStrings`: resolving
`"./" + path.relative(fromDir, target)` against `fromDir` lands exactly on
`target`, for any normalized `fromDir` and `target`. -/
theorem normalize_rejoin (F T : List String)
    (hF : ∀ s ∈ F, NormSeg s) (hT : ∀ s ∈ T, NormSeg s) :
    normalizeSegs (F ++ ("." :: relativeSegs F T)) = T := by
  have hFnorm : normalizeSegs F = F := by
    have := foldl_normStep_plain F hF []
    simpa [normalizeSegs] using this
  rw [normalizeSegs_append, hFnorm]
  have hdot : normStep F "." = F := by
    unfold normStep
    rw [if_pos (by simp)]
  rw [List.foldl_cons, hdot]
  unfold relativeSegs
  rw [List.foldl_append, foldl_normStep_dotdot]
  have hc := commonPrefixLen_le_left F T
  have harith : F.length - (F.length - commonPrefixLen F T) = commonPrefixLen F T := by omega
  rw [harith, take_commonPrefixLen_eq F T,
    foldl_normStep_plain (T.drop (commonPrefixLen F T))
      (fun s hs => hT s (List.drop_subset _ T hs)),
    List.take_append_drop]

theorem resolveOne_normSeg (cwd : PathSegs) (p : String) :
    ∀ s ∈ resolveOne cwd p, NormSeg s := by
  unfold resolveOne
  split
  · exact normalizeSegs_normSeg _
  · exact normalizeSegs_normSeg _

theorem resolveSegs_normSeg (cwd : PathSegs) (dir name : String) :
    ∀ s ∈ resolveSegs cwd dir name, NormSeg s := by
  unfold resolveSegs
  split
  · exact normalizeSegs_normSeg _
  · split
    · exact normalizeSegs_normSeg _
    · exact normalizeSegs_normSeg _

/-- C7 (amended): the strings file that `loadStrings`
(src/unnamed/part_000 lines 280-302) ends up loading is exactly
`path.resolve(stringsDir, locale + ".json")` — resolved against the
process working directory when `stringsDir` is relative.  The relative
path built through the config directory and the require base cancel out,
so the config file's own location has no influence on which file is
loaded. -/
theorem loadStrings_ignores_config_location (cwd : PathSegs)
    (configFilePath stringsDir locale : String) :
    loadStringsPath cwd configFilePath stringsDir locale
      = resolveSegs cwd stringsDir (locale ++ ".json") := by
  simp only [loadStringsPath]
  exact normalize_rejoin _ _ (resolveOne_normSeg cwd (dirname configFilePath))
    (resolveSegs_normSeg cwd stringsDir (locale ++ ".json"))

/-- C7 counterexample: same config file path `/proj/config.js`, same
relative `stringsDir` "strings" and locale "en", but two different
working directories: the loaded strings files differ
(`/home/alice/strings/en.json` against `/home/bob/strings/en.json`),
contradicting the claim that the resolution is independent of the
process working directory. -/
theorem loadStrings_depends_on_cwd :
    loadStringsPath ["home", "alice"] "/proj/config.js" "strings" "en"
        = ["home", "alice", "strings", "en.json"]
    ∧ loadStringsPath ["home", "bob"] "/proj/config.js" "strings" "en"
        = ["home", "bob", "strings", "en.json"]
    ∧ loadStringsPath ["home", "alice"] "/proj/config.js" "strings" "en"
        ≠ loadStringsPath ["home", "bob"] "/proj/config.js" "strings" "en" := by
  refine ⟨?_, ?_, ?_⟩ <;> decide

/-- C2 witness: registering `/in/logo.png` twice on a fresh image service
returns the same reference twice and leaves one registry entry. -/
theorem registerImage_idempotent_witness :
    ((ImageService.make Unit sampleOptions).images.filter
        (fun image => decide (image.inputPath = "/in/logo.png"))).length ≤ 1
    ∧ ((ImageService.registerImage []
          (ImageService.registerImage [] (ImageService.make Unit sampleOptions) "/in/logo.png").2
          "/in/logo.png").1
        = (ImageService.registerImage [] (ImageService.make Unit sampleOptions) "/in/logo.png").1
      ∧ (ImageService.registerImage []
          (ImageService.registerImage [] (ImageService.make Unit sampleOptions) "/in/logo.png").2
          "/in/logo.png").2
        = (ImageService.registerImage [] (ImageService.make Unit sampleOptions) "/in/logo.png").2
      ∧ ((ImageService.registerImage [] (ImageService.make Unit sampleOptions) "/in/logo.png").2.images.filter
          (fun image => decide (image.inputPath = "/in/logo.png"))).length = 1) :=
  ⟨by decide,
    registerImage_idempotent [] (ImageService.make Unit sampleOptions) "/in/logo.png" (by decide)⟩

/-! ### Helper lemmas: decimal numerals -/

theorem decChars_eq_digits :
    ∀ fuel n : Nat, 0 < n → n < fuel →
      decChars fuel n = ((Nat.digits 10 n).reverse.map Nat.digitChar) := by
  intro fuel
  induction fuel with
  | zero => intro n _ h; omega
  | succ fuel ih =>
    intro n hn hlt
    rw [Nat.digits_def' (by norm_num : (1:ℕ) < 10) hn]
    by_cases h10 : n < 10
    · have hdiv : n / 10 = 0 := Nat.div_eq_of_lt h10
      have hmod : n % 10 = n := Nat.mod_eq_of_lt h10
      simp [decChars, h10, hdiv, hmod]
    · have hdivpos : 0 < n / 10 := Nat.div_pos (Nat.le_of_not_lt h10) (by norm_num)
      have hdivlt : n / 10 < fuel := by
        have := Nat.div_lt_self hn (by norm_num : 1 < 10)
        omega
      simp [decChars, h10, ih (n / 10) hdivpos hdivlt]

theorem map_digitChar_inj :
    ∀ l1 l2 : List Nat, (∀ x ∈ l1, x < 10) → (∀ x ∈ l2, x < 10) →
      l1.map Nat.digitChar = l2.map Nat.digitChar → l1 = l2 := by
  have hd : ∀ a, a < 10 → ∀ b, b < 10 → Nat.digitChar a = Nat.digitChar b → a = b := by decide
  intro l1
  induction l1 with
  | nil =>
    intro l2 _ _ h
    cases l2 with
    | nil => rfl
    | cons y ys => simp at h
  | cons x xs ih =>
    intro l2 h1 h2 h
    cases l2 with
    | nil => simp at h
    | cons y ys =>
      simp only [List.map_cons, List.cons.injEq] at h
      have hx := h1 x (List.mem_cons_self x xs)
      have hy := h2 y (List.mem_cons_self y ys)
      rw [hd x hx y hy h.1,
        ih ys (fun z hz => h1 z (List.mem_cons_of_mem x hz))
          (fun z hz => h2 z (List.mem_cons_of_mem y hz)) h.2]

theorem jsNatRepr_inj {i j : Nat} (hi : 0 < i) (hj : 0 < j)
    (h : jsNatRepr i = jsNatRepr j) : i = j := by
  unfold jsNatRepr at h
  have hdata : decChars (i + 1) i = decChars (j + 1) j := congrArg String.data h
  rw [decChars_eq_digits (i + 1) i hi (by omega),
    decChars_eq_digits (j + 1) j hj (by omega)] at hdata
  have hrev : (Nat.digits 10 i).reverse = (Nat.digits 10 j).reverse :=
    map_digitChar_inj _ _
      (fun x hx => Nat.digits_lt_base (by norm_num) (List.mem_reverse.mp hx))
      (fun x hx => Nat.digits_lt_base (by norm_num) (List.mem_reverse.mp hx)) hdata
  exact Nat.digits.injective 10 (List.reverse_injective hrev)

theorem string_data_append (s t : String) : (s ++ t).data = s.data ++ t.data := rfl

theorem string_mk_data (s : String) : String.mk s.data = s := rfl

theorem digitChar_ne_slash : ∀ d : Nat, d < 10 → Nat.digitChar d ≠ '/' := by decide

theorem decChars_is_digitChar :
    ∀ fuel n : Nat, ∀ c ∈ decChars fuel n, ∃ d, d < 10 ∧ c = Nat.digitChar d := by
  intro fuel
  induction fuel with
  | zero => intro n c hc; simp [decChars] at hc
  | succ fuel ih =>
    intro n c hc
    unfold decChars at hc
    split at hc
    · rcases List.mem_singleton.mp hc with rfl
      rename_i hlt
      exact ⟨n, hlt, rfl⟩
    · rcases List.mem_append.mp hc with h | h
      · exact ih (n / 10) c h
      · rcases List.mem_singleton.mp h with rfl
        exact ⟨n % 10, Nat.mod_lt n (by norm_num), rfl⟩

theorem slash_not_mem_jsNatRepr (n : Nat) : '/' ∉ (jsNatRepr n).data := by
  intro h
  rcases decChars_is_digitChar (n + 1) n '/' h with ⟨d, hd, hc⟩
  exact digitChar_ne_slash d hd hc.symm

theorem outputName_data (p : String) (n : Nat) :
    (outputName p n).data = (basenameExt p (extname p)).data
      ++ (if n > 0 then '_' :: (jsNatRepr n).data else [])
      ++ (extname p).data := by
  unfold outputName
  by_cases h : n > 0
  · simp [h, string_data_append]
  · simp [h, string_data_append]

theorem underscore_mem_outputName (p : String) {n : Nat} (hn : 0 < n) :
    '_' ∈ (outputName p n).data := by
  rw [outputName_data]
  simp [hn]

theorem outputName_plain (p : String) (hp : PlainName (outputName p 0)) {n : Nat} (hn : 0 < n) :
    PlainName (outputName p n) := by
  obtain ⟨-, -, -, hp4⟩ := hp
  rw [outputName_data] at hp4
  simp only [gt_iff_lt, Nat.lt_irrefl, if_false, List.append_nil, List.mem_append,
    not_or] at hp4
  obtain ⟨hpB, hpE⟩ := hp4
  have hu : '_' ∈ (outputName p n).data := underscore_mem_outputName p hn
  refine ⟨?_, ?_, ?_, ?_⟩
  · intro he; rw [he] at hu; simp at hu
  · intro he; rw [he] at hu; simp at hu
  · intro he; rw [he] at hu; simp at hu
  · intro hs
    rw [outputName_data] at hs
    rcases List.mem_append.mp hs with hs | hs
    · rcases List.mem_append.mp hs with hs | hs
      · exact hpB hs
      · simp only [hn, if_pos] at hs
        rcases List.mem_cons.mp hs with hs | hs
        · exact absurd hs.symm (by decide)
        · exact slash_not_mem_jsNatRepr n hs
    · exact hpE hs

theorem outputName_injective (p : String) :
    Function.Injective (outputName p) := by
  intro i j h
  have hd := congrArg String.data h
  rw [outputName_data, outputName_data] at hd
  simp only [List.append_assoc] at hd
  have hmid := List.append_cancel_right (List.append_cancel_left hd)
  by_cases hi : 0 < i <;> by_cases hj : 0 < j
  · simp only [gt_iff_lt, hi, hj, if_pos] at hmid
    have hreps : jsNatRepr i = jsNatRepr j := by
      have hdata : (jsNatRepr i).data = (jsNatRepr j).data :=
        (List.cons.injEq _ _ _ _).mp hmid |>.2
      calc jsNatRepr i = String.mk (jsNatRepr i).data := (string_mk_data _).symm
        _ = String.mk (jsNatRepr j).data := by rw [hdata]
        _ = jsNatRepr j := string_mk_data _
    exact jsNatRepr_inj hi hj hreps
  · simp only [gt_iff_lt, hi, hj, if_pos, if_neg] at hmid
    simp at hmid
  · simp only [gt_iff_lt, hi, hj] at hmid
    simp at hmid
  · omega

theorem PlainName.toNormSeg {s : String} (h : PlainName s) : NormSeg s :=
  ⟨h.1, h.2.1, h.2.2.1⟩

theorem splitCharsAux_no_slash :
    ∀ cs acc : List Char, '/' ∉ cs → splitCharsAux cs acc = [String.mk (acc.reverse ++ cs)] := by
  intro cs
  induction cs with
  | nil => intro acc _; simp [splitCharsAux]
  | cons c rest ih =>
    intro acc h
    have hc : c ≠ '/' := fun hcc => h (hcc ▸ List.mem_cons_self c rest)
    have hrest : '/' ∉ rest := fun hr => h (List.mem_cons_of_mem c hr)
    rw [splitCharsAux, if_neg hc, ih (c :: acc) hrest]
    simp

theorem splitPath_plain (f : String) (hf : '/' ∉ f.data) : splitPath f = [f] := by
  unfold splitPath
  rw [splitCharsAux_no_slash f.data [] hf]
  simp [string_mk_data]

theorem isAbsolutePath_plain (f : String) (hf : PlainName f) : isAbsolutePath f = false := by
  obtain ⟨h1, -, -, h4⟩ := hf
  unfold isAbsolutePath
  cases hdata : f.data with
  | nil =>
    exfalso
    apply h1
    rw [← string_mk_data f, hdata]
  | cons c cs =>
    have hc : c ≠ '/' := by
      intro hcc
      exact h4 (hdata ▸ hcc ▸ List.mem_cons_self c cs)
    simp [hc]

theorem resolveSegs_plain_name (cwd : PathSegs) (dir : String) (f : String)
    (hf : PlainName f) :
    resolveSegs cwd dir f
      = normalizeSegs (if isAbsolutePath dir then splitPath dir else cwd ++ splitPath dir)
        ++ [f] := by
  unfold resolveSegs
  rw [isAbsolutePath_plain f hf, splitPath_plain f hf.2.2.2]
  by_cases hdir : isAbsolutePath dir
  · simp only [hdir, Bool.false_eq_true, if_false, if_true]
    rw [normalizeSegs_append, List.foldl_cons, List.foldl_nil,
      normStep_normSeg _ _ hf.toNormSeg]
  · simp only [hdir, Bool.false_eq_true, if_false]
    rw [normalizeSegs_append, List.foldl_cons, List.foldl_nil,
      normStep_normSeg _ _ hf.toNormSeg]

theorem createOutputPath_injective (cwd : PathSegs) (outputDir p : String)
    (hp : PlainName (outputName p 0)) :
    Function.Injective (createOutputPath cwd outputDir p) := by
  intro i j h
  unfold createOutputPath at h
  have hplain : ∀ n : Nat, PlainName (outputName p n) := by
    intro n
    rcases Nat.eq_zero_or_pos n with rfl | hn
    · exact hp
    · exact outputName_plain p hp hn
  rw [resolveSegs_plain_name cwd outputDir _ (hplain i),
    resolveSegs_plain_name cwd outputDir _ (hplain j)] at h
  have := List.append_cancel_left h
  exact outputName_injective p (List.singleton_injective this)

theorem exists_unclaimed (images : List RegisteredImage) (cand : Nat → PathSegs)
    (hinj : Function.Injective cand) :
    ∃ k, k ≤ images.length ∧ isClaimed images (cand k) = false := by
  by_contra hc
  push_neg at hc
  have hmem : ∀ k, k ≤ images.length →
      cand k ∈ images.map (fun image => image.outputPath) := by
    intro k hk
    have hcl := hc k hk
    rw [Bool.ne_false_iff] at hcl
    unfold isClaimed at hcl
    rw [decide_eq_true_iff] at hcl
    rcases List.exists_mem_of_length_pos hcl with ⟨image, himage⟩
    have heq := List.of_mem_filter himage
    rw [decide_eq_true_iff] at heq
    exact heq ▸ List.mem_map_of_mem _ (List.mem_of_mem_filter himage)
  have hnodup : ((List.range (images.length + 1)).map cand).Nodup :=
    (List.nodup_range _).map hinj
  have hcard1 : ((List.range (images.length + 1)).map cand).toFinset.card
      = images.length + 1 := by
    rw [List.toFinset_card_of_nodup hnodup]
    simp
  have hsub : ((List.range (images.length + 1)).map cand).toFinset
      ⊆ (images.map (fun image => image.outputPath)).toFinset := by
    intro x hx
    rw [List.mem_toFinset] at hx
    rw [List.mem_toFinset]
    rcases List.mem_map.mp hx with ⟨k, hk, rfl⟩
    exact hmem k (Nat.lt_succ_iff.mp (List.mem_range.mp hk))
  have hcard2 := Finset.card_le_card hsub
  have hcard3 := List.toFinset_card_le (l := images.map (fun image => image.outputPath))
  rw [List.length_map] at hcard3
  omega

theorem findUPAux_spec (claimed : Nat → Bool) :
    ∀ fuel i : Nat, (∃ k, k < fuel ∧ claimed (i + k) = false) →
      claimed (findUPAux claimed fuel i) = false
      ∧ i ≤ findUPAux claimed fuel i
      ∧ ∀ j, i ≤ j → j < findUPAux claimed fuel i → claimed j = true := by
  intro fuel
  induction fuel with
  | zero =>
    intro i h
    rcases h with ⟨k, hk, _⟩
    omega
  | succ fuel ih =>
    intro i h
    by_cases hcl : claimed i = true
    · have hex : ∃ k, k < fuel ∧ claimed (i + 1 + k) = false := by
        rcases h with ⟨k, hk, hkc⟩
        have hk0 : k ≠ 0 := by
          intro h0
          subst h0
          rw [Nat.add_zero, hcl] at hkc
          simp at hkc
        exact ⟨k - 1, by omega, by rw [show i + 1 + (k - 1) = i + k by omega]; exact hkc⟩
      have hrec := ih (i + 1) hex
      simp only [findUPAux, if_pos hcl]
      refine ⟨hrec.1, by omega, ?_⟩
      intro j hij hjr
      rcases Nat.eq_or_lt_of_le hij with rfl | hlt
      · exact hcl
      · exact hrec.2.2 j hlt hjr
    · rw [Bool.not_eq_true] at hcl
      have hres : findUPAux claimed (fuel + 1) i = i := by
        simp only [findUPAux, hcl, Bool.false_eq_true, if_false]
      rw [hres]
      exact ⟨hcl, Nat.le_refl i,
        fun j h1 h2 => absurd (Nat.lt_of_le_of_lt h1 h2) (Nat.lt_irrefl i)⟩

theorem findUniqueOutputPath_spec {α : Type} (cwd : PathSegs) (svc : ImageService α)
    (p : String) (hp : PlainName (outputName p 0)) :
    ∃ N, svc.findUniqueOutputPath cwd p
          = createOutputPath cwd svc.base.options.output.dir p N
      ∧ isClaimed svc.images (createOutputPath cwd svc.base.options.output.dir p N) = false
      ∧ ∀ m, m < N →
          isClaimed svc.images (createOutputPath cwd svc.base.options.output.dir p m) = true := by
  obtain ⟨k, hk, hkc⟩ := exists_unclaimed svc.images
    (createOutputPath cwd svc.base.options.output.dir p)
    (createOutputPath_injective cwd svc.base.options.output.dir p hp)
  have hex : ∃ k', k' < svc.images.length + 1
      ∧ (fun n => isClaimed svc.images (createOutputPath cwd svc.base.options.output.dir p n))
          (0 + k') = false :=
    ⟨k, by omega, by simpa using hkc⟩
  have hspec := findUPAux_spec
    (fun n => isClaimed svc.images (createOutputPath cwd svc.base.options.output.dir p n))
    (svc.images.length + 1) 0 hex
  exact ⟨findUPAux
      (fun n => isClaimed svc.images (createOutputPath cwd svc.base.options.output.dir p n))
      (svc.images.length + 1) 0,
    rfl, hspec.1, fun m hm => hspec.2.2 m (Nat.zero_le m) hm⟩

theorem registerImage_preserves_nodup {α : Type} (cwd : PathSegs) (svc : ImageService α)
    (p : String) (hp : PlainName (outputName p 0))
    (hnd : (svc.images.map (fun image => image.outputPath)).Nodup) :
    ((ImageService.registerImage cwd svc p).2.images.map
      (fun image => image.outputPath)).Nodup := by
  rcases hfil : svc.images.filter (fun image => decide (image.inputPath = p)) with _ | ⟨img, rest⟩
  · obtain ⟨N, hN, hNc, -⟩ := findUniqueOutputPath_spec cwd svc p hp
    have hnot : svc.findUniqueOutputPath cwd p
        ∉ svc.images.map (fun image => image.outputPath) := by
      rw [hN]
      intro hmem
      rcases List.mem_map.mp hmem with ⟨image, himg, heq⟩
      have hcl : isClaimed svc.images
          (createOutputPath cwd svc.base.options.output.dir p N) = true := by
        unfold isClaimed
        rw [decide_eq_true_iff]
        have hmemf : image ∈ svc.images.filter
            (fun image => decide (image.outputPath
              = createOutputPath cwd svc.base.options.output.dir p N)) :=
          List.mem_filter.mpr ⟨himg, by rw [decide_eq_true_iff]; exact heq⟩
        exact List.length_pos.mpr (List.ne_nil_of_mem hmemf)
      rw [hNc] at hcl
      simp at hcl
    simp only [ImageService.registerImage, hfil, List.head?_nil, List.map_append]
    rw [List.nodup_append]
    refine ⟨hnd, List.nodup_singleton _, ?_⟩
    intro x hx hsing
    simp at hsing
    rw [hsing] at hx
    exact hnot hx
  · simp [ImageService.registerImage, hfil, hnd]

theorem registerAll_nodup_aux {α : Type} (cwd : PathSegs) :
    ∀ (inputs : List String) (svc : ImageService α),
      (∀ p ∈ inputs, PlainName (outputName p 0)) →
      (svc.images.map (fun image => image.outputPath)).Nodup →
      ((ImageService.registerAll cwd svc inputs).images.map
        (fun image => image.outputPath)).Nodup := by
  intro inputs
  induction inputs with
  | nil =>
    intro svc _ h
    simpa [ImageService.registerAll] using h
  | cons p ps ih =>
    intro svc hpl h
    have hstep := registerImage_preserves_nodup cwd svc p
      (hpl p (List.mem_cons_self p ps)) h
    have := ih ((ImageService.registerImage cwd svc p).2)
      (fun q hq => hpl q (List.mem_cons_of_mem p hq)) hstep
    simpa [ImageService.registerAll] using this

/-- C3: when a newly registered input's first-choice output path is
already claimed by a previously registered different input,
`_findUniqueOutputPath` (src/unnamed/part_004 lines 66-82) assigns the
name obtained by inserting `_N` between the base name and the extension,
for the smallest positive `N` whose candidate is unclaimed; and across
any sequence of registrations on one service instance the assigned
output paths are pairwise distinct. -/
theorem registerImage_unique_names {α : Type} :
    (∀ (cwd : PathSegs) (svc : ImageService α) (p : String),
      PlainName (outputName p 0) →
      svc.images.filter (fun image => decide (image.inputPath = p)) = [] →
      isClaimed svc.images (createOutputPath cwd svc.base.options.output.dir p 0) = true →
      ∃ N, 0 < N
        ∧ (ImageService.registerImage cwd svc p).2.images
            = svc.images
              ++ [RegisteredImage.mk p (createOutputPath cwd svc.base.options.output.dir p N)]
        ∧ outputName p N = basenameExt p (extname p) ++ "_" ++ jsNatRepr N ++ extname p
        ∧ isClaimed svc.images (createOutputPath cwd svc.base.options.output.dir p N) = false
        ∧ (∀ m, 0 < m → m < N →
            isClaimed svc.images (createOutputPath cwd svc.base.options.output.dir p m) = true))
    ∧ (∀ (cwd : PathSegs) (opts : BuildOptions α) (inputs : List String),
      (∀ p ∈ inputs, PlainName (outputName p 0)) →
      ((ImageService.registerAll cwd (ImageService.make α opts) inputs).images.map
        (fun image => image.outputPath)).Nodup) := by
  constructor
  · intro cwd svc p hplain hfil hclaimed
    obtain ⟨N, hN, hNc, hmin⟩ := findUniqueOutputPath_spec cwd svc p hplain
    have hNpos : 0 < N := by
      rcases Nat.eq_zero_or_pos N with rfl | h
      · rw [hclaimed] at hNc
        simp at hNc
      · exact h
    refine ⟨N, hNpos, ?_, ?_, hNc, fun m _ hmN => hmin m hmN⟩
    · simp only [ImageService.registerImage, hfil, List.head?_nil, hN]
    · unfold outputName
      rw [if_pos hNpos]
      simp [String.append_assoc]
  · intro cwd opts inputs hplains
    exact registerAll_nodup_aux cwd inputs (ImageService.make α opts) hplains
      (by simp [ImageService.make])

/-- C3 witness: with `/b/logo.png` already registered at `/out/logo.png`,
registering `/a/logo.png` picks a positive suffix index; and registering
the two clashing inputs on a fresh service yields pairwise distinct
output paths. -/
theorem registerImage_unique_names_witness :
    (PlainName (outputName "/a/logo.png" 0)
      ∧ (ImageService.mk (Service.make Unit "ImageService" sampleOptions)
            [RegisteredImage.mk "/b/logo.png" ["out", "logo.png"]]).images.filter
            (fun image => decide (image.inputPath = "/a/logo.png")) = []
      ∧ isClaimed (ImageService.mk (Service.make Unit "ImageService" sampleOptions)
            [RegisteredImage.mk "/b/logo.png" ["out", "logo.png"]]).images
          (createOutputPath []
            (ImageService.mk (Service.make Unit "ImageService" sampleOptions)
              [RegisteredImage.mk "/b/logo.png" ["out", "logo.png"]]).base.options.output.dir
            "/a/logo.png" 0) = true
      ∧ ∃ N, 0 < N
        ∧ (ImageService.registerImage []
            (ImageService.mk (Service.make Unit "ImageService" sampleOptions)
              [RegisteredImage.mk "/b/logo.png" ["out", "logo.png"]]) "/a/logo.png").2.images
            = (ImageService.mk (Service.make Unit "ImageService" sampleOptions)
                [RegisteredImage.mk "/b/logo.png" ["out", "logo.png"]]).images
              ++ [RegisteredImage.mk "/a/logo.png"
                  (createOutputPath []
                    (ImageService.mk (Service.make Unit "ImageService" sampleOptions)
                      [RegisteredImage.mk "/b/logo.png" ["out", "logo.png"]]).base.options.output.dir
                    "/a/logo.png" N)]
        ∧ outputName "/a/logo.png" N
            = basenameExt "/a/logo.png" (extname "/a/logo.png") ++ "_" ++ jsNatRepr N
              ++ extname "/a/logo.png"
        ∧ isClaimed (ImageService.mk (Service.make Unit "ImageService" sampleOptions)
              [RegisteredImage.mk "/b/logo.png" ["out", "logo.png"]]).images
            (createOutputPath []
              (ImageService.mk (Service.make Unit "ImageService" sampleOptions)
                [RegisteredImage.mk "/b/logo.png" ["out", "logo.png"]]).base.options.output.dir
              "/a/logo.png" N) = false
        ∧ (∀ m, 0 < m → m < N →
            isClaimed (ImageService.mk (Service.make Unit "ImageService" sampleOptions)
                [RegisteredImage.mk "/b/logo.png" ["out", "logo.png"]]).images
              (createOutputPath []
                (ImageService.mk (Service.make Unit "ImageService" sampleOptions)
                  [RegisteredImage.mk "/b/logo.png" ["out", "logo.png"]]).base.options.output.dir
                "/a/logo.png" m) = true))
    ∧ ((∀ p ∈ ["/a/logo.png", "/b/logo.png"], PlainName (outputName p 0))
      ∧ ((ImageService.registerAll [] (ImageService.make Unit sampleOptions)
            ["/a/logo.png", "/b/logo.png"]).images.map
          (fun image => image.outputPath)).Nodup) :=
  ⟨⟨by decide, by decide, by decide,
      registerImage_unique_names.1 []
        (ImageService.mk (Service.make Unit "ImageService" sampleOptions)
          [RegisteredImage.mk "/b/logo.png" ["out", "logo.png"]])
        "/a/logo.png" (by decide) (by decide) (by decide)⟩,
    ⟨by decide,
      registerImage_unique_names.2 [] sampleOptions ["/a/logo.png", "/b/logo.png"]
        (by decide)⟩⟩
